import Mathlib

/-!
Shallow embedding of the `headlesnb` undo/redo history engine.

The repository implements a Command-Pattern history for ordered sequences
(notebook cells in `src/headlesnb/history.py`, dialog messages in
`src/headlesnb/dialogmanager/dialog_history.py`).  Documents are modelled as
Lean lists; each Python command class becomes a structure with `execute`,
`undo` and (where the source defines one) `redo` functions that return the
updated command state and/or the updated sequence.  Python lists are modelled
as `List`; `list.insert` is `List.insertIdx`, `del l[i]` is `List.eraseIdx`,
`l[i]` on an index known to be in range is `List.getD i default`
(the out-of-range `default` branch is never reached under the validity
hypotheses of the theorems, mirroring that Python would raise there).
-/

namespace Headlesnb

/-! ### InsertCellCommand (`history.py` lines 98–157)

`cell_index` is an `Int` because the source uses `-1` as the append sentinel.
`execute` resolves the sentinel to the current length, stores the resolved
index back into the command, and inserts.  `undo` deletes at the stored index
when it is in range.  (A negative `cell_index` other than the sentinel never
reaches `undo` in the source because `execute` always stores a resolved
non-negative index; the model uses `Int.toNat` there.)  The parallel
`InsertMessageCommand` in `dialog_history.py` lines 22–67 has identical
index behaviour. -/

structure InsertCellCommand (α : Type*) where
  cell_index : Int
  cell_source : α

/-- Model of `InsertCellCommand.execute`: resolve the `-1` sentinel to the
current length, insert, and store the resolved index back. -/
def InsertCellCommand.execute {α : Type*} (c : InsertCellCommand α) (cells : List α) :
    InsertCellCommand α × List α :=
  let actual_index : Nat := if c.cell_index = -1 then cells.length else c.cell_index.toNat
  ({ c with cell_index := (actual_index : Int) },
   cells.insertIdx actual_index c.cell_source)

/-- Model of `InsertCellCommand.undo`: delete at the stored index when it is
in range, otherwise leave the list unchanged (the source guards with
`if self.cell_index < len(nb.cells)`). -/
def InsertCellCommand.undo {α : Type*} (c : InsertCellCommand α) (cells : List α) : List α :=
  if c.cell_index < (cells.length : Int) then cells.eraseIdx c.cell_index.toNat else cells

/-! ### DeleteCellCommand (`history.py` lines 160–225)

`execute` sorts the (de-duplicated) requested indices in descending order,
deletes each in-range index in turn, and records each removed item together
with its pre-deletion index, in deletion order (largest index first).
`undo` walks the recorded list in reverse (ascending original indices) and
re-inserts each item at its recorded index.  The parallel
`DeleteMessageCommand` in `dialog_history.py` lines 70–120 is identical. -/

/-- Model of `sorted(set(xs), reverse=True)` over natural-number indices. -/
def sortedDescIndices (idxs : List Nat) : List Nat :=
  (idxs.toFinset.sort (· ≤ ·)).reverse

/-- Model of the deletion loop of `DeleteCellCommand.execute`: for each index
in order, when in range, record `(index, element)` and delete it.  Returns
the recorded list (in iteration order) and the final sequence. -/
def deleteLoop {α : Type*} : List Nat → List α → List (Nat × α) × List α
  | [], cells => ([], cells)
  | idx :: rest, cells =>
    if h : idx < cells.length then
      let r := deleteLoop rest (cells.eraseIdx idx)
      ((idx, cells[idx]) :: r.1, r.2)
    else
      deleteLoop rest cells

structure DeleteCellCommand (α : Type*) where
  cell_indices : List Nat
  deleted_cells : List (Nat × α) := []

/-- Model of `DeleteCellCommand.execute`: delete at
`sorted(set(cell_indices), reverse=True)` and store the removed items with
their pre-deletion indices. -/
def DeleteCellCommand.execute {α : Type*} (c : DeleteCellCommand α) (cells : List α) :
    DeleteCellCommand α × List α :=
  let r := deleteLoop (sortedDescIndices c.cell_indices) cells
  ({ c with deleted_cells := r.1 }, r.2)

/-- Model of `DeleteCellCommand.undo`: re-insert the stored items processing
the stored list in reverse (ascending original indices). -/
def DeleteCellCommand.undo {α : Type*} (c : DeleteCellCommand α) (cells : List α) : List α :=
  c.deleted_cells.reverse.foldl (fun acc p => acc.insertIdx p.1 p.2) cells

/-! ### OverwriteCellCommand (`history.py` lines 228–273)

The cell sequence is modelled by its list of sources.  `execute` recaptures
`old_source` when the stored one is falsy (`if not self.old_source`, i.e.
the empty string), then writes `new_source`.  `undo` writes `old_source`
back; `redo` is the inherited default, calling `execute` again. -/

structure OverwriteCellCommand where
  cell_index : Nat
  old_source : String
  new_source : String

/-- Model of `OverwriteCellCommand.execute`: capture the current source into
`old_source` when the stored `old_source` is empty (Python truthiness of
`str`), then set the cell's source to `new_source`. -/
def OverwriteCellCommand.execute (c : OverwriteCellCommand) (cells : List String) :
    OverwriteCellCommand × List String :=
  let captured := if c.old_source = "" then cells.getD c.cell_index "" else c.old_source
  ({ c with old_source := captured }, cells.set c.cell_index c.new_source)

/-- Model of `OverwriteCellCommand.undo`: write `old_source` back. -/
def OverwriteCellCommand.undo (c : OverwriteCellCommand) (cells : List String) :
    List String :=
  cells.set c.cell_index c.old_source

/-- Model of the inherited `HistoryCommand.redo`: call `execute` again. -/
def OverwriteCellCommand.redo (c : OverwriteCellCommand) (cells : List String) :
    OverwriteCellCommand × List String :=
  c.execute cells

/-! ### UpdateMessageCommand (`dialog_history.py` lines 123–167)

The dialog counterpart of Overwrite guards recapture with
`if self.old_value is None`, modelled with `Option`.  The message sequence
is modelled by the list of values of the updated field. -/

structure UpdateMessageCommand where
  msg_index : Nat
  old_value : Option String
  new_value : String

/-- Model of `UpdateMessageCommand.execute`: capture the current field value
only when `old_value` is `none` (`is None` in the source), then write
`new_value`. -/
def UpdateMessageCommand.execute (c : UpdateMessageCommand) (msgs : List String) :
    UpdateMessageCommand × List String :=
  let captured := match c.old_value with
    | none => some (msgs.getD c.msg_index "")
    | some v => some v
  ({ c with old_value := captured }, msgs.set c.msg_index c.new_value)

/-- Model of `UpdateMessageCommand.undo`: write the stored old value back
(after `execute` it is always `some`). -/
def UpdateMessageCommand.undo (c : UpdateMessageCommand) (msgs : List String) :
    List String :=
  msgs.set c.msg_index (c.old_value.getD "")

/-- Model of the inherited `HistoryCommand.redo`: call `execute` again. -/
def UpdateMessageCommand.redo (c : UpdateMessageCommand) (msgs : List String) :
    UpdateMessageCommand × List String :=
  c.execute msgs

/-! ### MoveCellCommand (`history.py` lines 276–328)

`execute` pops the cell at `from_index` and inserts it at `to_index`
(interpreted against the list after removal); `undo` is the exact mirror.
The parallel `MoveMessageCommand` in `dialog_history.py` lines 170–210 is
identical. -/

structure MoveCellCommand where
  from_index : Nat
  to_index : Nat

/-- Model of `MoveCellCommand.execute`: `pop(from_index)` then
`insert(to_index, cell)`. -/
def MoveCellCommand.execute {α : Type*} [Inhabited α] (c : MoveCellCommand)
    (cells : List α) : List α :=
  (cells.eraseIdx c.from_index).insertIdx c.to_index (cells.getD c.from_index default)

/-- Model of `MoveCellCommand.undo`: `pop(to_index)` then
`insert(from_index, cell)`. -/
def MoveCellCommand.undo {α : Type*} [Inhabited α] (c : MoveCellCommand)
    (cells : List α) : List α :=
  (cells.eraseIdx c.to_index).insertIdx c.from_index (cells.getD c.to_index default)

/-! ### SwapCellsCommand (`history.py` lines 331–364)

The source's tuple assignment reads both cells first, then writes `index1`
and then `index2`.  `undo` literally calls `execute` again.  The parallel
`SwapMessagesCommand` in `dialog_history.py` lines 213–241 is identical. -/

structure SwapCellsCommand where
  index1 : Nat
  index2 : Nat

/-- Model of `SwapCellsCommand.execute`: read both elements, then write
`index1` and then `index2`.  Out-of-range indices leave the list unchanged
(the source would raise there; the theorems only use in-range indices). -/
def SwapCellsCommand.execute {α : Type*} (c : SwapCellsCommand) (cells : List α) : List α :=
  match cells[c.index1]?, cells[c.index2]? with
  | some a, some b => (cells.set c.index1 b).set c.index2 a
  | _, _ => cells

/-- Model of `SwapCellsCommand.undo`: the source returns
`self.execute(manager)`. -/
def SwapCellsCommand.undo {α : Type*} (c : SwapCellsCommand) (cells : List α) : List α :=
  c.execute cells

/-! ### ReorderCellsCommand (`history.py` lines 367–421)

`execute` captures `old_order` as `range(len(cells))` when it is unset
(empty list is falsy) and rebuilds the sequence as
`[old_cells[i] for i in new_order]`.  `undo` rebuilds as
`[cur[new_order.index(i)] for i in old_order]`, i.e. applies the inverse
permutation.  The parallel `ReorderMessagesCommand` in `dialog_history.py`
lines 244–286 is identical. -/

structure ReorderCellsCommand where
  old_order : List Nat := []
  new_order : List Nat

/-- Model of `ReorderCellsCommand.execute`. -/
def ReorderCellsCommand.execute {α : Type*} [Inhabited α] (c : ReorderCellsCommand)
    (cells : List α) : ReorderCellsCommand × List α :=
  let old := if c.old_order = [] then List.range cells.length else c.old_order
  ({ c with old_order := old }, c.new_order.map (fun i => cells.getD i default))

/-- Model of `ReorderCellsCommand.undo`: for each original position `i` in
`old_order`, take the element now sitting at `new_order.index(i)`. -/
def ReorderCellsCommand.undo {α : Type*} [Inhabited α] (c : ReorderCellsCommand)
    (cells : List α) : List α :=
  c.old_order.map (fun i => cells.getD (c.new_order.indexOf i) default)

/-! ### OperationHistory (`history.py` lines 424–562)

The two stacks are modelled most-recent-first: Python `append`/`pop` at the
end of the list become `cons`/head here, and Python `pop(0)` (evicting the
oldest, bottom entry) becomes `dropLast`.  Commands are abstracted by a type
`C` together with an action `C → M → Except String (String × M)` on an
abstract manager state `M`: `Except.ok` is a normal return of the result
message, `Except.error` models a raised exception (carrying `str(e)`). -/

structure OperationHistory (C : Type*) where
  max_size : Nat
  undo_stack : List C
  redo_stack : List C

/-- Model of `OperationHistory.add_command`: push onto the undo stack, clear
the redo stack, and when the undo stack exceeds `max_size` evict the oldest
(bottom) entry — `pop(0)` in the source, `dropLast` in the
most-recent-first representation. -/
def OperationHistory.add_command {C : Type*} (h : OperationHistory C) (c : C) :
    OperationHistory C :=
  let us := c :: h.undo_stack
  { h with
    undo_stack := if us.length > h.max_size then us.dropLast else us
    redo_stack := [] }

/-- Model of `OperationHistory.can_undo`. -/
def OperationHistory.can_undo {C : Type*} (h : OperationHistory C) : Bool :=
  h.undo_stack.length > 0

/-- Model of `OperationHistory.can_redo`. -/
def OperationHistory.can_redo {C : Type*} (h : OperationHistory C) : Bool :=
  h.redo_stack.length > 0

/-- Model of the `for _ in range(steps)` loop shared verbatim by
`OperationHistory.undo` and `OperationHistory.redo` (the two methods differ
only in which stack they pop from, which verb the failure message uses, and
whether they call `.undo` or `.redo`).  `act` is that per-command call;
`d` is `description()`.  Pops from `fromStack`; on success pushes the popped
command onto `toStack` and collects the result message; on failure pushes
the command back onto `fromStack` and raises
`"Failed to <verb> <description>: <error>"`, keeping the stacks as already
mutated (earlier successful steps are not rolled back).  Returns the batch
outcome, the final `fromStack`, the final `toStack`, and the final manager
state. -/
def batchApply {C M : Type*} (verb : String) (act : C → M → Except String (String × M))
    (d : C → String) :
    Nat → List C → List C → M → Except String (List String) × List C × List C × M
  | 0, fromStack, toStack, m => (Except.ok [], fromStack, toStack, m)
  | steps + 1, fromStack, toStack, m =>
    match fromStack with
    | [] => (Except.ok [], [], toStack, m)
    | c :: rest =>
      match act c m with
      | Except.ok (res, m1) =>
        let r := batchApply verb act d steps rest (c :: toStack) m1
        (r.1.map (fun l => res :: l), r.2)
      | Except.error e =>
        (Except.error ("Failed to " ++ verb ++ " " ++ d c ++ ": " ++ e),
         c :: rest, toStack, m)

/-- Model of `OperationHistory.undo`: clamp `steps` to the undo-stack length
and run the batch loop popping from the undo stack and pushing onto the redo
stack. -/
def OperationHistory.undo {C M : Type*} (u : C → M → Except String (String × M))
    (d : C → String) (h : OperationHistory C) (steps : Nat) (m : M) :
    Except String (List String) × OperationHistory C × M :=
  let r := batchApply "undo" u d (min steps h.undo_stack.length)
    h.undo_stack h.redo_stack m
  (r.1, { h with undo_stack := r.2.1, redo_stack := r.2.2.1 }, r.2.2.2)

/-- Model of `OperationHistory.redo`: clamp `steps` to the redo-stack length
and run the batch loop popping from the redo stack and pushing onto the undo
stack. -/
def OperationHistory.redo {C M : Type*} (r : C → M → Except String (String × M))
    (d : C → String) (h : OperationHistory C) (steps : Nat) (m : M) :
    Except String (List String) × OperationHistory C × M :=
  let q := batchApply "redo" r d (min steps h.redo_stack.length)
    h.redo_stack h.undo_stack m
  (q.1, { h with redo_stack := q.2.1, undo_stack := q.2.2.1 }, q.2.2.2)

/-! ### NotebookManager.reorder_cells (`nb_manager.py` lines 832–899)

The manager state for this operation is the active notebook's cell list plus
its history (the claim presupposes an active document, so the
`active_notebook` guard is outside the model).  Validation happens before
the command is constructed: first the length check, then the set-equality
check with its missing/extra diagnostic; only then is the command executed
and recorded.  The result pairs the returned message (`Except.error` for the
`"Error: ..."` returns, `Except.ok` for the success message) with the
resulting state, so that invariance of the state under errors is a real
proposition.  `wrap` injects the reorder command into whatever command type
the history stores. -/

structure NotebookState (α : Type*) (C : Type*) where
  cells : List α
  history : OperationHistory C

/-- Model of `NotebookManager.reorder_cells`. -/
def reorder_cells {α C : Type*} [Inhabited α] (wrap : ReorderCellsCommand → C)
    (st : NotebookState α C) (new_order : List Nat) :
    Except String String × NotebookState α C :=
  if new_order.length ≠ st.cells.length then
    (Except.error ("Error: new_order length (" ++ toString new_order.length ++
      ") doesn't match cell count (" ++ toString st.cells.length ++ ")"), st)
  else
    let expected_indices := (List.range st.cells.length).toFinset
    let actual_indices := new_order.toFinset
    if actual_indices ≠ expected_indices then
      (Except.error ("Error: Invalid new_order." ++
        (if (expected_indices \ actual_indices).Nonempty then
          " Missing indices: " ++
            toString ((expected_indices \ actual_indices).sort (· ≤ ·)) ++ "." else "") ++
        (if (actual_indices \ expected_indices).Nonempty then
          " Invalid indices: " ++
            toString ((actual_indices \ expected_indices).sort (· ≤ ·)) ++ "." else "")), st)
    else
      let r := ReorderCellsCommand.execute { new_order := new_order } st.cells
      (Except.ok ("Reordered " ++ toString r.2.length ++ " cells"),
       { cells := r.2, history := st.history.add_command (wrap r.1) })

/-! ## Helper lemmas -/

/-- If the index is in range, `List.getD` is the corresponding element. -/
theorem getD_of_lt {α : Type*} {l : List α} {n : Nat} (d : α) (h : n < l.length) :
    l.getD n d = l[n] := by
  simp [List.getD_eq_getElem?_getD, List.getElem?_eq_getElem h]

/-- Re-inserting the element removed from position `i` back at position `i`
restores the original list.  This is the key identity behind the undo of
`MoveCellCommand` and of each step of `DeleteCellCommand.undo`. -/
theorem insertIdx_getElem_eraseIdx {α : Type*} :
    ∀ (s : List α) (i : Nat) (h : i < s.length), (s.eraseIdx i).insertIdx i s[i] = s
  | _ :: _, 0, _ => rfl
  | a :: t, i + 1, h => by
      simp only [List.eraseIdx_cons_succ, List.insertIdx_succ_cons, List.getElem_cons_succ]
      exact congrArg (a :: ·) (insertIdx_getElem_eraseIdx t i (by simpa using h))

/-- The descending sorted index list is strictly descending. -/
theorem sortedDescIndices_pairwise (idxs : List Nat) :
    (sortedDescIndices idxs).Pairwise (· > ·) := by
  rw [sortedDescIndices, List.pairwise_reverse]
  exact Finset.sort_sorted_lt _

/-- Membership in the descending sorted index list agrees with membership in
the request. -/
theorem mem_sortedDescIndices {idxs : List Nat} {i : Nat} :
    i ∈ sortedDescIndices idxs ↔ i ∈ idxs := by
  simp [sortedDescIndices, Finset.mem_sort, List.mem_toFinset]

/-- Undoing the deletion loop over a strictly descending list of valid
indices restores the original list. -/
theorem deleteLoop_undo {α : Type*} :
    ∀ (l : List Nat) (cells : List α), l.Pairwise (· > ·) →
      (∀ i ∈ l, i < cells.length) →
      (deleteLoop l cells).1.reverse.foldl (fun acc p => acc.insertIdx p.1 p.2)
        (deleteLoop l cells).2 = cells := by
  intro l
  induction l with
  | nil => intro cells _ _; rfl
  | cons i rest ih =>
    intro cells hp hv
    have hi : i < cells.length := hv i (List.mem_cons_self i rest)
    have hgt : ∀ j ∈ rest, j < i := fun j hj => (List.pairwise_cons.mp hp).1 j hj
    have hrest : ∀ j ∈ rest, j < (cells.eraseIdx i).length := by
      intro j hj
      have h1 := List.length_eraseIdx_add_one hi
      have h2 := hgt j hj
      omega
    simp only [deleteLoop, dif_pos hi, List.reverse_cons, List.foldl_append]
    rw [ih (cells.eraseIdx i) (List.pairwise_cons.mp hp).2 hrest]
    simpa using insertIdx_getElem_eraseIdx cells i hi

/-- Writing back the element already at position `i` leaves the list
unchanged. -/
theorem set_getElem_self {α : Type*} {l : List α} {i : Nat} (h : i < l.length) :
    l.set i l[i] = l := by
  apply List.ext_getElem (by simp)
  intro k hk1 hk2
  rw [List.getElem_set]
  split
  · next heq => subst heq; rfl
  · rfl

/-- When every command on the popped prefix succeeds (with a result message
determined by the command), the batch loop pops exactly `min n (length)`
commands, collects their results in pop order, and moves them to the other
stack most-recent-first. -/
theorem batchApply_ok {C M : Type*} (verb : String)
    (act : C → M → Except String (String × M)) (d : C → String) (f : C → String) :
    ∀ (n : Nat) (us rs : List C) (m : M),
      (∀ c ∈ us, ∀ m0 : M, ∃ m1, act c m0 = Except.ok (f c, m1)) →
      ∃ m1 : M, batchApply verb act d n us rs m =
        (Except.ok ((us.take (min n us.length)).map f),
         us.drop (min n us.length),
         (us.take (min n us.length)).reverse ++ rs, m1) := by
  intro n
  induction n with
  | zero => intro us rs m _; exact ⟨m, by simp [batchApply]⟩
  | succ k ih =>
    intro us rs m hall
    match us with
    | [] => exact ⟨m, by simp [batchApply]⟩
    | c :: rest =>
      obtain ⟨m1, hm1⟩ := hall c (List.mem_cons_self c rest) m
      obtain ⟨m2, hm2⟩ := ih rest (c :: rs) m1
        (fun c1 hc1 m0 => hall c1 (List.mem_cons_of_mem c hc1) m0)
      refine ⟨m2, ?_⟩
      have hmin : min (k + 1) (c :: rest).length = min k rest.length + 1 := by
        simp [List.length_cons]; omega
      simp only [batchApply, hm1, hm2, hmin, List.take_succ_cons, List.drop_succ_cons,
        List.map_cons, List.reverse_cons, Except.map]
      simp [List.append_assoc]

/-- When the commands before `bad` succeed and `bad` fails, the batch loop
stops at `bad`, reports a failure naming `bad`'s description, pushes `bad`
back onto the stack it came from, and leaves the already-processed commands
on the other stack. -/
theorem batchApply_error {C M : Type*} (verb : String)
    (act : C → M → Except String (String × M)) (d : C → String) (f : C → String) :
    ∀ (goods : List C) (bad : C) (rest rs : List C) (n : Nat) (m : M),
      (∀ c ∈ goods, ∀ m0 : M, ∃ m1, act c m0 = Except.ok (f c, m1)) →
      (∀ m0 : M, ∃ e, act bad m0 = Except.error e) →
      goods.length < n →
      ∃ (e : String) (m1 : M),
        batchApply verb act d n (goods ++ bad :: rest) rs m =
          (Except.error ("Failed to " ++ verb ++ " " ++ d bad ++ ": " ++ e),
           bad :: rest, goods.reverse ++ rs, m1) := by
  intro goods
  induction goods with
  | nil =>
    intro bad rest rs n m _ hbad hn
    match n, hn with
    | k + 1, _ =>
      obtain ⟨e, he⟩ := hbad m
      exact ⟨e, m, by simp [batchApply, he]⟩
  | cons g gs ih =>
    intro bad rest rs n m hgoods hbad hn
    match n, hn with
    | k + 1, hn =>
      obtain ⟨m1, hm1⟩ := hgoods g (List.mem_cons_self g gs) m
      obtain ⟨e, m2, hm2⟩ := ih bad rest (g :: rs) k m1
        (fun c1 hc1 m0 => hgoods c1 (List.mem_cons_of_mem g hc1) m0) hbad
        (by simpa using Nat.lt_of_succ_lt_succ hn)
      refine ⟨e, m2, ?_⟩
      simp only [List.cons_append, batchApply, hm1, hm2, Except.map]
      simp [List.append_assoc]

/-- The batch loop conserves the stored commands: the final contents of the
two stacks are a permutation of the initial contents (each popped command
is either pushed onto the other stack or pushed back). -/
theorem batchApply_perm {C M : Type*} (verb : String)
    (act : C → M → Except String (String × M)) (d : C → String) :
    ∀ (n : Nat) (us rs : List C) (m : M),
      ((batchApply verb act d n us rs m).2.1 ++
        (batchApply verb act d n us rs m).2.2.1).Perm (us ++ rs) := by
  intro n
  induction n with
  | zero => intro us rs m; simp [batchApply]
  | succ k ih =>
    intro us rs m
    match us with
    | [] => simp [batchApply]
    | c :: rest =>
      simp only [batchApply]
      match hact : act c m with
      | Except.ok (res, m1) =>
        simp only
        exact (ih rest (c :: rs) m1).trans
          (List.perm_middle.trans (List.Perm.cons c (List.Perm.refl _)))
      | Except.error e => simp

/-- A successful batch returns at most as many results as there were
commands on the popped stack. -/
theorem batchApply_ok_length {C M : Type*} (verb : String)
    (act : C → M → Except String (String × M)) (d : C → String) :
    ∀ (n : Nat) (us rs : List C) (m : M) (l : List String),
      (batchApply verb act d n us rs m).1 = Except.ok l → l.length ≤ us.length := by
  intro n
  induction n with
  | zero =>
    intro us rs m l hl
    simp only [batchApply] at hl
    cases hl
    simp
  | succ k ih =>
    intro us rs m l hl
    match us with
    | [] =>
      simp only [batchApply] at hl
      cases hl
      simp
    | c :: rest =>
      simp only [batchApply] at hl
      match hact : act c m with
      | Except.ok (res, m1) =>
        rw [hact] at hl
        simp only [Except.map] at hl
        match hr : (batchApply verb act d k rest (c :: rs) m1).1 with
        | Except.ok l1 =>
          rw [hr] at hl
          simp only [Except.map] at hl
          have := ih rest (c :: rs) m1 l1 hr
          cases hl
          simpa using Nat.succ_le_succ this
        | Except.error e => rw [hr] at hl; simp [Except.map] at hl
      | Except.error e => rw [hact] at hl; simp at hl

/-! ## Claim theorems -/

/-- C5: executing the Insert command with the append sentinel `-1` on a
sequence of length `n` resolves the target index to `n`, stores that
resolved index back into the command's state replacing the sentinel, inserts
the new item at the end, and the subsequent undo removes exactly the item at
the resolved index, restoring the original sequence. -/
theorem insert_append_sentinel {α : Type*} (cells : List α) (x : α) :
    ((InsertCellCommand.execute ⟨-1, x⟩ cells).1.cell_index = (cells.length : Int)) ∧
    ((InsertCellCommand.execute ⟨-1, x⟩ cells).2 = cells ++ [x]) ∧
    (InsertCellCommand.undo (InsertCellCommand.execute ⟨-1, x⟩ cells).1
      (InsertCellCommand.execute ⟨-1, x⟩ cells).2 = cells) := by
  refine ⟨rfl, by simp [InsertCellCommand.execute], ?_⟩
  simp only [InsertCellCommand.execute, InsertCellCommand.undo, if_pos rfl]
  rw [if_pos]
  · show (cells.insertIdx cells.length x).eraseIdx (Int.toNat cells.length) = cells
    have h : (Int.toNat (cells.length : Int)) = cells.length := by omega
    rw [h]
    exact List.eraseIdx_insertIdx _ _
  · show (cells.length : Int) < ((cells.insertIdx cells.length x).length : Int)
    rw [List.length_insertIdx _ _ (le_refl _)]
    omega

/-- C6: for valid distinct indices `a ≠ b`, the Move command's execute pops
the item at `a` and inserts it at `b` (interpreted after removal), and its
undo pops from `b` and re-inserts at `a`, restoring the exact pre-move
sequence. -/
theorem move_roundtrip {α : Type*} [Inhabited α] (cells : List α) (a b : Nat)
    (ha : a < cells.length) (hb : b < cells.length) (hab : a ≠ b) :
    MoveCellCommand.undo ⟨a, b⟩ (MoveCellCommand.execute ⟨a, b⟩ cells) = cells := by
  have hlen : (cells.eraseIdx a).length + 1 = cells.length :=
    List.length_eraseIdx_add_one ha
  have hble : b ≤ (cells.eraseIdx a).length := by omega
  have hgd : cells.getD a default = cells[a] := getD_of_lt _ ha
  unfold MoveCellCommand.execute MoveCellCommand.undo
  simp only [hgd]
  have hlen2 : ((cells.eraseIdx a).insertIdx b cells[a]).length
      = (cells.eraseIdx a).length + 1 := List.length_insertIdx b _ hble
  have hb2 : b < ((cells.eraseIdx a).insertIdx b cells[a]).length := by omega
  have hgd2 : ((cells.eraseIdx a).insertIdx b cells[a]).getD b default = cells[a] := by
    rw [getD_of_lt _ hb2]
    exact List.getElem_insertIdx_self _ _ _ hble
  rw [hgd2, List.eraseIdx_insertIdx]
  exact insertIdx_getElem_eraseIdx cells a ha

/-- C6 witness: moving the head of `[10, 20, 30]` to position 1 and undoing
restores the list. -/
theorem move_roundtrip_witness :
    MoveCellCommand.undo ⟨0, 1⟩
      (MoveCellCommand.execute ⟨0, 1⟩ ([10, 20, 30] : List Nat)) = [10, 20, 30] :=
  move_roundtrip [10, 20, 30] 0 1 (by decide) (by decide) (by decide)

/-- C7: for valid indices, the Swap command is self-inverse — executing
twice restores the original sequence — and its undo is implemented as (and
equal in effect to) executing again. -/
theorem swap_involution {α : Type*} (cells : List α) (a b : Nat)
    (ha : a < cells.length) (hb : b < cells.length) :
    SwapCellsCommand.execute ⟨a, b⟩ (SwapCellsCommand.execute ⟨a, b⟩ cells) = cells ∧
    SwapCellsCommand.undo ⟨a, b⟩ (SwapCellsCommand.execute ⟨a, b⟩ cells) = cells ∧
    ∀ s : List α, SwapCellsCommand.undo ⟨a, b⟩ s = SwapCellsCommand.execute ⟨a, b⟩ s := by
  have hset : ∀ (s : List α) (hA : a < s.length) (hB : b < s.length),
      SwapCellsCommand.execute ⟨a, b⟩ s = (s.set a s[b]).set b s[a] := by
    intro s hA hB
    simp [SwapCellsCommand.execute, List.getElem?_eq_getElem hA,
      List.getElem?_eq_getElem hB]
  have key : SwapCellsCommand.execute ⟨a, b⟩ (SwapCellsCommand.execute ⟨a, b⟩ cells)
      = cells := by
    rw [hset cells ha hb]
    have ha' : a < ((cells.set a cells[b]).set b cells[a]).length := by simpa using ha
    have hb' : b < ((cells.set a cells[b]).set b cells[a]).length := by simpa using hb
    rw [hset _ ha' hb']
    apply List.ext_getElem (by simp)
    intro k hk1 hk2
    simp only [List.getElem_set]
    split_ifs <;> simp_all
  exact ⟨key, key, fun s => rfl⟩

/-- C7 witness: swapping indices 1 and 3 of a four-element list twice
restores it, and undo equals a second execute. -/
theorem swap_involution_witness :
    SwapCellsCommand.execute ⟨1, 3⟩
        (SwapCellsCommand.execute ⟨1, 3⟩ ([4, 5, 6, 7] : List Nat)) = [4, 5, 6, 7] ∧
    SwapCellsCommand.undo ⟨1, 3⟩
        (SwapCellsCommand.execute ⟨1, 3⟩ ([4, 5, 6, 7] : List Nat)) = [4, 5, 6, 7] ∧
    ∀ s : List Nat, SwapCellsCommand.undo ⟨1, 3⟩ s = SwapCellsCommand.execute ⟨1, 3⟩ s :=
  swap_involution [4, 5, 6, 7] 1 3 (by decide) (by decide)

/-- C1: for every sequence and every non-empty list of distinct valid
indices, executing the Delete command and then calling its undo restores the
sequence exactly, and the restored sequence is the same for any reordering
of the requested index list. -/
theorem delete_undo_restores {α : Type*} (cells : List α) (idxs : List Nat)
    (hne : idxs ≠ []) (hnd : idxs.Nodup) (hval : ∀ i ∈ idxs, i < cells.length) :
    (DeleteCellCommand.undo
        (DeleteCellCommand.execute { cell_indices := idxs } cells).1
        (DeleteCellCommand.execute { cell_indices := idxs } cells).2 = cells) ∧
    (∀ idxs' : List Nat, idxs'.Perm idxs →
      DeleteCellCommand.undo
        (DeleteCellCommand.execute { cell_indices := idxs' } cells).1
        (DeleteCellCommand.execute { cell_indices := idxs' } cells).2 = cells) := by
  have main : ∀ l : List Nat, (∀ i ∈ l, i < cells.length) →
      DeleteCellCommand.undo
        (DeleteCellCommand.execute { cell_indices := l } cells).1
        (DeleteCellCommand.execute { cell_indices := l } cells).2 = cells := by
    intro l hv
    simp only [DeleteCellCommand.execute, DeleteCellCommand.undo]
    exact deleteLoop_undo (sortedDescIndices l) cells (sortedDescIndices_pairwise l)
      (fun i hi => hv i (mem_sortedDescIndices.mp hi))
  exact ⟨main idxs hval,
    fun idxs' hperm => main idxs' (fun i hi => hval i (hperm.subset hi))⟩

/-- C1 witness: deleting indices `[8, 5, 2]` from a 10-item sequence and
undoing restores all 10 items, and listing the same indices as `[2, 8, 5]`
restores the same sequence. -/
theorem delete_undo_restores_witness :
    (DeleteCellCommand.undo
        (DeleteCellCommand.execute { cell_indices := [8, 5, 2] } (List.range 10)).1
        (DeleteCellCommand.execute { cell_indices := [8, 5, 2] } (List.range 10)).2
      = List.range 10) ∧
    (DeleteCellCommand.undo
        (DeleteCellCommand.execute { cell_indices := [2, 8, 5] } (List.range 10)).1
        (DeleteCellCommand.execute { cell_indices := [2, 8, 5] } (List.range 10)).2
      = List.range 10) :=
  ⟨(delete_undo_restores (List.range 10) [8, 5, 2] (by decide) (by decide)
      (by decide)).1,
   (delete_undo_restores (List.range 10) [8, 5, 2] (by decide) (by decide)
      (by decide)).2 [2, 8, 5] (by decide)⟩

/-- C2: for a sequence of length `n` and a permutation `P` of `[0, n)`, the
Reorder command produces `[old[P[0]], ..., old[P[n-1]]]`, its undo restores
the exact pre-reorder sequence, and reversing a 5-item sequence twice via
`reorder([4,3,2,1,0])` returns it to the original order. -/
theorem reorder_roundtrip {α : Type*} [Inhabited α] (cells : List α) (P : List Nat)
    (hP : P.Perm (List.range cells.length)) :
    ((ReorderCellsCommand.execute { new_order := P } cells).2
        = P.map (fun i => cells.getD i default)) ∧
    (ReorderCellsCommand.undo (ReorderCellsCommand.execute { new_order := P } cells).1
        (ReorderCellsCommand.execute { new_order := P } cells).2 = cells) ∧
    (∀ a b c d e : α,
      (ReorderCellsCommand.execute { new_order := [4, 3, 2, 1, 0] }
        (ReorderCellsCommand.execute { new_order := [4, 3, 2, 1, 0] }
          [a, b, c, d, e]).2).2 = [a, b, c, d, e]) := by
  refine ⟨rfl, ?_, fun a b c d e => rfl⟩
  have hlenP : P.length = cells.length := by
    simpa using hP.length_eq
  simp only [ReorderCellsCommand.execute, ReorderCellsCommand.undo, reduceIte]
  apply List.ext_getElem (by simp)
  intro k hk1 hk2
  have hkn : k < cells.length := hk2
  have hkP : k ∈ P := hP.mem_iff.mpr (List.mem_range.mpr hkn)
  have hidx : P.indexOf k < P.length := List.indexOf_lt_length.mpr hkP
  have hidx2 : P.indexOf k < (P.map (fun i => cells.getD i default)).length := by
    simpa using hidx
  simp only [List.getElem_map, List.getElem_range]
  rw [getD_of_lt _ hidx2, List.getElem_map, List.getElem_indexOf hidx,
    getD_of_lt _ hkn]

/-- C2 witness: reordering `[10, 20, 30]` by the permutation `[2, 0, 1]` and
undoing restores the original list. -/
theorem reorder_roundtrip_witness :
    ReorderCellsCommand.undo
      (ReorderCellsCommand.execute { new_order := [2, 0, 1] } ([10, 20, 30] : List Nat)).1
      (ReorderCellsCommand.execute { new_order := [2, 0, 1] } ([10, 20, 30] : List Nat)).2
      = [10, 20, 30] :=
  (reorder_roundtrip [10, 20, 30] [2, 0, 1] (by decide)).2.1

/-- C8 counterexample: for the notebook Overwrite command, a pre-supplied
empty old value IS overwritten by recapture.  With current source `"X"` and
the command constructed with `old_source = ""` (pre-supplied empty),
`execute` replaces the stored old value with `"X"`, contradicting the claim
that a pre-supplied old value — including an empty one — is never
overwritten. -/
theorem overwrite_empty_presupplied_recaptured :
    (OverwriteCellCommand.execute ⟨0, "", "Y"⟩ ["X"]).1.old_source = "X" ∧
    (OverwriteCellCommand.execute ⟨0, "", "Y"⟩ ["X"]).1.old_source ≠ "" := by
  refine ⟨?_, ?_⟩ <;> simp [OverwriteCellCommand.execute]

/-- C8 amended: `execute` captures the current field value as the old value
only when the stored old value is "absent", where absent means the empty
string for the notebook Overwrite command (so a pre-supplied empty old value
is treated as absent and is overwritten by recapture; only a non-empty
pre-supplied value is preserved) and `None` for the dialog Update command
(so a pre-supplied value, including an empty string, is never overwritten);
undo writes the stored old value back to the field, and redo writes the new
value again. -/
theorem overwrite_update_capture (c : OverwriteCellCommand) (cells : List String)
    (u : UpdateMessageCommand) (msgs : List String) :
    (c.old_source ≠ "" → (c.execute cells).1.old_source = c.old_source) ∧
    (c.old_source = "" →
      (c.execute cells).1.old_source = cells.getD c.cell_index "") ∧
    ((c.execute cells).2 = cells.set c.cell_index c.new_source) ∧
    (∀ c1 : OverwriteCellCommand, ∀ s : List String,
      c1.undo s = s.set c1.cell_index c1.old_source) ∧
    (c.old_source = "" → c.cell_index < cells.length →
      OverwriteCellCommand.undo (c.execute cells).1 (c.execute cells).2 = cells) ∧
    (∀ c1 : OverwriteCellCommand, ∀ s : List String,
      (c1.redo s).2 = s.set c1.cell_index c1.new_source) ∧
    (∀ v, u.old_value = some v → (u.execute msgs).1.old_value = some v) ∧
    (u.old_value = none →
      (u.execute msgs).1.old_value = some (msgs.getD u.msg_index "")) ∧
    ((u.execute msgs).2 = msgs.set u.msg_index u.new_value) ∧
    (∀ u1 : UpdateMessageCommand, ∀ s : List String,
      u1.undo s = s.set u1.msg_index (u1.old_value.getD "")) ∧
    (u.old_value = none → u.msg_index < msgs.length →
      UpdateMessageCommand.undo (u.execute msgs).1 (u.execute msgs).2 = msgs) ∧
    (∀ u1 : UpdateMessageCommand, ∀ s : List String,
      (u1.redo s).2 = s.set u1.msg_index u1.new_value) := by
  refine ⟨fun h => by simp [OverwriteCellCommand.execute, h],
    fun h => by simp [OverwriteCellCommand.execute, h],
    rfl, fun c1 s => rfl, ?_, fun c1 s => rfl,
    fun v h => by simp [UpdateMessageCommand.execute, h],
    fun h => by simp [UpdateMessageCommand.execute, h],
    rfl, fun u1 s => rfl, ?_, fun u1 s => rfl⟩
  · intro h hlt
    simp only [OverwriteCellCommand.execute, OverwriteCellCommand.undo, h, if_pos rfl]
    rw [List.set_set, getD_of_lt _ hlt]
    exact set_getElem_self hlt
  · intro h hlt
    simp only [UpdateMessageCommand.execute, UpdateMessageCommand.undo, h]
    rw [Option.getD_some, List.set_set, getD_of_lt _ hlt]
    exact set_getElem_self hlt

/-- C8 amended witness: a non-empty pre-supplied old value `"A"` survives
execute on the notebook command, and a pre-supplied empty old value survives
execute on the dialog command. -/
theorem overwrite_update_capture_witness :
    (OverwriteCellCommand.execute ⟨0, "A", "B"⟩ ["X"]).1.old_source = "A" ∧
    (UpdateMessageCommand.execute ⟨0, some "", "B"⟩ ["X"]).1.old_value = some "" :=
  ⟨(overwrite_update_capture ⟨0, "A", "B"⟩ ["X"] ⟨0, some "", "B"⟩ ["X"]).1
      (by decide),
   (overwrite_update_capture ⟨0, "A", "B"⟩ ["X"] ⟨0, some "", "B"⟩
      ["X"]).2.2.2.2.2.2.1 "" rfl⟩

/-- C3: undo(n) pops and undoes exactly `min n k` commands most-recent-first,
pushing each onto the redo stack as it succeeds and returning that many
results without error even when `n > k`; when a command's undo raises, that
command is pushed back onto the undo stack, the batch stops with an error
naming the failing command's description, and the commands already undone
remain on the redo stack.  The symmetric property holds for redo(n). -/
theorem history_undo_redo_batch {C M : Type*}
    (u r : C → M → Except String (String × M)) (d : C → String) (f : C → String) :
    (∀ (h : OperationHistory C) (n : Nat) (m : M),
      (∀ c ∈ h.undo_stack, ∀ m0 : M, ∃ m1, u c m0 = Except.ok (f c, m1)) →
      ∃ m1 : M, OperationHistory.undo u d h n m =
        (Except.ok ((h.undo_stack.take (min n h.undo_stack.length)).map f),
         { h with
             undo_stack := h.undo_stack.drop (min n h.undo_stack.length)
             redo_stack := (h.undo_stack.take (min n h.undo_stack.length)).reverse
               ++ h.redo_stack },
         m1)) ∧
    (∀ (h : OperationHistory C) (goods : List C) (bad : C) (rest : List C)
        (n : Nat) (m : M),
      h.undo_stack = goods ++ bad :: rest →
      (∀ c ∈ goods, ∀ m0 : M, ∃ m1, u c m0 = Except.ok (f c, m1)) →
      (∀ m0 : M, ∃ e, u bad m0 = Except.error e) →
      goods.length < n →
      ∃ (e : String) (m1 : M), OperationHistory.undo u d h n m =
        (Except.error ("Failed to undo " ++ d bad ++ ": " ++ e),
         { h with
             undo_stack := bad :: rest
             redo_stack := goods.reverse ++ h.redo_stack },
         m1)) ∧
    (∀ (h : OperationHistory C) (n : Nat) (m : M),
      (∀ c ∈ h.redo_stack, ∀ m0 : M, ∃ m1, r c m0 = Except.ok (f c, m1)) →
      ∃ m1 : M, OperationHistory.redo r d h n m =
        (Except.ok ((h.redo_stack.take (min n h.redo_stack.length)).map f),
         { h with
             redo_stack := h.redo_stack.drop (min n h.redo_stack.length)
             undo_stack := (h.redo_stack.take (min n h.redo_stack.length)).reverse
               ++ h.undo_stack },
         m1)) ∧
    (∀ (h : OperationHistory C) (goods : List C) (bad : C) (rest : List C)
        (n : Nat) (m : M),
      h.redo_stack = goods ++ bad :: rest →
      (∀ c ∈ goods, ∀ m0 : M, ∃ m1, r c m0 = Except.ok (f c, m1)) →
      (∀ m0 : M, ∃ e, r bad m0 = Except.error e) →
      goods.length < n →
      ∃ (e : String) (m1 : M), OperationHistory.redo r d h n m =
        (Except.error ("Failed to redo " ++ d bad ++ ": " ++ e),
         { h with
             redo_stack := bad :: rest
             undo_stack := goods.reverse ++ h.undo_stack },
         m1)) := by
  refine ⟨?_, ?_, ?_, ?_⟩
  · intro h n m hall
    obtain ⟨m1, hm⟩ := batchApply_ok "undo" u d f (min n h.undo_stack.length)
      h.undo_stack h.redo_stack m hall
    have hmin : min (min n h.undo_stack.length) h.undo_stack.length
        = min n h.undo_stack.length := by omega
    rw [hmin] at hm
    exact ⟨m1, by simp [OperationHistory.undo, hm]⟩
  · intro h goods bad rest n m hstack hgoods hbad hlt
    have hlen : goods.length < min n (h.undo_stack.length) := by
      rw [hstack]
      simp only [List.length_append, List.length_cons]
      omega
    rw [hstack] at hlen
    obtain ⟨e, m1, hm⟩ := batchApply_error "undo" u d f goods bad rest
      h.redo_stack (min n ((goods ++ bad :: rest).length)) m hgoods hbad hlen
    refine ⟨e, m1, ?_⟩
    simp only [OperationHistory.undo, hstack, hm]
    rfl
  · intro h n m hall
    obtain ⟨m1, hm⟩ := batchApply_ok "redo" r d f (min n h.redo_stack.length)
      h.redo_stack h.undo_stack m hall
    have hmin : min (min n h.redo_stack.length) h.redo_stack.length
        = min n h.redo_stack.length := by omega
    rw [hmin] at hm
    exact ⟨m1, by simp [OperationHistory.redo, hm]⟩
  · intro h goods bad rest n m hstack hgoods hbad hlt
    have hlen : goods.length < min n (h.redo_stack.length) := by
      rw [hstack]
      simp only [List.length_append, List.length_cons]
      omega
    rw [hstack] at hlen
    obtain ⟨e, m1, hm⟩ := batchApply_error "redo" r d f goods bad rest
      h.undo_stack (min n ((goods ++ bad :: rest).length)) m hgoods hbad hlen
    refine ⟨e, m1, ?_⟩
    simp only [OperationHistory.redo, hstack, hm]
    rfl

/-- C3 witness: on the history with undo stack `[3, 2, 1]`, a total undo
action with `undo(5)` undoes exactly 3 commands and reports their three
results most-recent-first without error; with an action that fails on
command `2`, `undo(3)` undoes `3`, stops with an error naming `2`, pushes
`2` back onto the undo stack, and leaves `3` on the redo stack. -/
theorem history_undo_redo_batch_witness :
    (∃ m1 : Unit, OperationHistory.undo
        (fun (c : Nat) (_ : Unit) => Except.ok (toString c, ()))
        (fun c => toString c) (⟨100, [3, 2, 1], []⟩ : OperationHistory Nat) 5 ()
      = (Except.ok ["3", "2", "1"], ⟨100, [], [1, 2, 3]⟩, m1)) ∧
    (∃ (e : String) (m1 : Unit), OperationHistory.undo
        (fun (c : Nat) (_ : Unit) =>
          if c = 2 then Except.error "boom" else Except.ok (toString c, ()))
        (fun c => toString c) (⟨100, [3, 2, 1], []⟩ : OperationHistory Nat) 3 ()
      = (Except.error ("Failed to undo " ++ toString 2 ++ ": " ++ e),
         ⟨100, [2, 1], [3]⟩, m1)) := by
  constructor
  · obtain ⟨m1, hm⟩ := (history_undo_redo_batch
      (fun (c : Nat) (_ : Unit) => Except.ok (toString c, ()))
      (fun (c : Nat) (_ : Unit) => Except.ok (toString c, ()))
      (fun c => toString c) (fun c => toString c)).1
      ⟨100, [3, 2, 1], []⟩ 5 () (fun c _ m0 => ⟨(), rfl⟩)
    exact ⟨m1, hm⟩
  · obtain ⟨e, m1, hm⟩ := (history_undo_redo_batch
      (fun (c : Nat) (_ : Unit) =>
        if c = 2 then Except.error "boom" else Except.ok (toString c, ()))
      (fun (c : Nat) (_ : Unit) =>
        if c = 2 then Except.error "boom" else Except.ok (toString c, ()))
      (fun c => toString c) (fun c => toString c)).2.1
      ⟨100, [3, 2, 1], []⟩ [3] 2 [1] 3 () rfl
      (by
        intro c hc m0
        rw [List.mem_singleton] at hc
        subst hc
        exact ⟨(), rfl⟩)
      (fun m0 => ⟨"boom", rfl⟩) (by decide)
    exact ⟨e, m1, hm⟩

/-- C10: every undo(n)/redo(n) call preserves the total number of stored
commands — the final stacks hold, as a multiset, exactly the commands the
two stacks held before the call (so in particular the sum of their lengths
is unchanged); nothing is duplicated or dropped. -/
theorem history_conserves_commands {C M : Type*}
    (u r : C → M → Except String (String × M)) (d : C → String)
    (h : OperationHistory C) (steps : Nat) (m : M) :
    (((OperationHistory.undo u d h steps m).2.1.undo_stack ++
        (OperationHistory.undo u d h steps m).2.1.redo_stack).Perm
      (h.undo_stack ++ h.redo_stack)) ∧
    ((OperationHistory.undo u d h steps m).2.1.undo_stack.length +
        (OperationHistory.undo u d h steps m).2.1.redo_stack.length
      = h.undo_stack.length + h.redo_stack.length) ∧
    (((OperationHistory.redo r d h steps m).2.1.undo_stack ++
        (OperationHistory.redo r d h steps m).2.1.redo_stack).Perm
      (h.undo_stack ++ h.redo_stack)) ∧
    ((OperationHistory.redo r d h steps m).2.1.undo_stack.length +
        (OperationHistory.redo r d h steps m).2.1.redo_stack.length
      = h.undo_stack.length + h.redo_stack.length) := by
  have hu := batchApply_perm "undo" u d (min steps h.undo_stack.length)
    h.undo_stack h.redo_stack m
  have hr := batchApply_perm "redo" r d (min steps h.redo_stack.length)
    h.redo_stack h.undo_stack m
  have hu' : (((OperationHistory.undo u d h steps m).2.1.undo_stack ++
      (OperationHistory.undo u d h steps m).2.1.redo_stack).Perm
      (h.undo_stack ++ h.redo_stack)) := hu
  have hr' : (((OperationHistory.redo r d h steps m).2.1.undo_stack ++
      (OperationHistory.redo r d h steps m).2.1.redo_stack).Perm
      (h.undo_stack ++ h.redo_stack)) :=
    (List.perm_append_comm.trans hr).trans List.perm_append_comm
  refine ⟨hu', ?_, hr', ?_⟩
  · have := hu'.length_eq
    simpa using this
  · have := hr'.length_eq
    simpa using this

/-- C4: add_command pushes onto the undo stack, unconditionally empties the
redo stack (so redo afterwards reports nothing to redo), evicts exactly the
oldest (bottom) entry whenever the undo stack's length exceeds max_size,
and therefore the undo stack never exceeds max_size commands and undo can
never recover more than max_size steps. -/
theorem add_command_policy {C M : Type*} (h : OperationHistory C) (c : C)
    (u r : C → M → Except String (String × M)) (d : C → String) :
    ((h.add_command c).redo_stack = []) ∧
    ((h.add_command c).can_redo = false) ∧
    (∀ (steps : Nat) (m : M),
      OperationHistory.redo r d (h.add_command c) steps m
        = (Except.ok [], h.add_command c, m)) ∧
    ((c :: h.undo_stack).length > h.max_size →
      (h.add_command c).undo_stack = (c :: h.undo_stack).dropLast) ∧
    ((c :: h.undo_stack).length ≤ h.max_size →
      (h.add_command c).undo_stack = c :: h.undo_stack) ∧
    (h.undo_stack.length ≤ h.max_size →
      (h.add_command c).undo_stack.length ≤ h.max_size) ∧
    (h.undo_stack.length ≤ h.max_size →
      ∀ (steps : Nat) (m : M) (results : List String),
        (OperationHistory.undo u d (h.add_command c) steps m).1 = Except.ok results →
        results.length ≤ h.max_size) := by
  have hbound : h.undo_stack.length ≤ h.max_size →
      (h.add_command c).undo_stack.length ≤ h.max_size := by
    intro hle
    simp only [OperationHistory.add_command]
    by_cases hgt : (c :: h.undo_stack).length > h.max_size
    · rw [if_pos hgt]
      simp only [List.length_dropLast, List.length_cons]
      omega
    · rw [if_neg hgt]
      simp only [List.length_cons] at hgt ⊢
      omega
  refine ⟨rfl, rfl, ?_, ?_, ?_, hbound, ?_⟩
  · intro steps m
    simp [OperationHistory.redo, OperationHistory.add_command, batchApply]
  · intro hgt
    simp only [OperationHistory.add_command]
    rw [if_pos hgt]
  · intro hle
    simp only [OperationHistory.add_command]
    rw [if_neg (by omega)]
  · intro hle steps m results hres
    have hres' : (batchApply "undo" u d
        (min steps (h.add_command c).undo_stack.length)
        (h.add_command c).undo_stack (h.add_command c).redo_stack m).1
        = Except.ok results := hres
    have hlen := batchApply_ok_length "undo" u d
      (min steps (h.add_command c).undo_stack.length)
      (h.add_command c).undo_stack (h.add_command c).redo_stack m results hres'
    have := hbound hle
    omega

/-- C4 witness: with max_size 2 and undo stack `[10, 20]` (most recent
first), recording `30` evicts the bottom entry `20`, and a 5-step undo over
the capped history recovers only 2 results. -/
theorem add_command_policy_witness :
    (((⟨2, [10, 20], []⟩ : OperationHistory Nat).add_command 30).undo_stack
      = [30, 10, 20].dropLast) ∧
    (["r", "r"] : List String).length ≤ 2 :=
  ⟨(add_command_policy (M := Unit) ⟨2, [10, 20], []⟩ 30
      (fun _ _ => Except.ok ("r", ())) (fun _ _ => Except.ok ("r", ()))
      (fun _ => "d")).2.2.2.1 (by decide),
   (add_command_policy (M := Unit) ⟨2, [10, 20], []⟩ 30
      (fun _ _ => Except.ok ("r", ())) (fun _ _ => Except.ok ("r", ()))
      (fun _ => "d")).2.2.2.2.2.2 (by decide) 5 () ["r", "r"] rfl⟩

/-- A list of naturals with the length of `range n` and the same `toFinset`
as `range n` is a permutation of `range n`, and conversely. -/
theorem length_toFinset_iff_perm_range (P : List Nat) (n : Nat) :
    (P.length = n ∧ P.toFinset = (List.range n).toFinset) ↔
      P.Perm (List.range n) := by
  constructor
  · rintro ⟨hlen, hset⟩
    have hcard : P.toFinset.card = n := by
      rw [hset, List.toFinset_card_of_nodup (List.nodup_range n)]
      simp
    have hded : P.dedup.length = P.length := by
      rw [← List.card_toFinset, hcard, hlen]
    have hnodup : P.Nodup :=
      List.dedup_eq_self.mp ((List.dedup_sublist P).eq_of_length hded)
    exact List.perm_of_nodup_nodup_toFinset_eq hnodup (List.nodup_range n) hset
  · intro h
    exact ⟨by simpa using h.length_eq, List.toFinset_eq_of_perm _ _ h⟩

/-- C9: the manager's reorder operation returns a structured error and
leaves the cell sequence and both history stacks completely unchanged
exactly when the requested order is not a permutation of `[0, n)`; on a
valid permutation it succeeds, applies the reorder, and records the
executed command in history. -/
theorem reorder_validation {α C : Type*} [Inhabited α]
    (wrap : ReorderCellsCommand → C) (st : NotebookState α C)
    (new_order : List Nat) :
    (¬ new_order.Perm (List.range st.cells.length) →
      ∃ e, reorder_cells wrap st new_order = (Except.error e, st)) ∧
    (new_order.Perm (List.range st.cells.length) →
      ∃ s, reorder_cells wrap st new_order =
        (Except.ok s,
         { cells := new_order.map (fun i => st.cells.getD i default)
           history := st.history.add_command
             (wrap { old_order := List.range st.cells.length
                     new_order := new_order }) })) ∧
    ((∃ e, (reorder_cells wrap st new_order).1 = Except.error e) ↔
      ¬ new_order.Perm (List.range st.cells.length)) := by
  have hchar := length_toFinset_iff_perm_range new_order st.cells.length
  by_cases h1 : new_order.length = st.cells.length
  · by_cases h2 : new_order.toFinset = (List.range st.cells.length).toFinset
    · have hperm := hchar.mp ⟨h1, h2⟩
      have hok : reorder_cells wrap st new_order =
          (Except.ok ("Reordered " ++
              toString (new_order.map (fun i => st.cells.getD i default)).length
              ++ " cells"),
           { cells := new_order.map (fun i => st.cells.getD i default)
             history := st.history.add_command
               (wrap { old_order := List.range st.cells.length
                       new_order := new_order }) }) := by
        simp only [reorder_cells]
        rw [if_neg (not_not_intro h1), if_neg (not_not_intro h2)]
        simp [ReorderCellsCommand.execute]
      refine ⟨fun hn => absurd hperm hn, fun _ => ⟨_, hok⟩, ?_⟩
      rw [hok]
      constructor
      · rintro ⟨e, he⟩
        simp at he
      · intro hn
        exact absurd hperm hn
    · have hnoperm : ¬ new_order.Perm (List.range st.cells.length) := by
        intro hp
        exact h2 (hchar.mpr hp).2
      have herr : reorder_cells wrap st new_order =
          (Except.error ("Error: Invalid new_order." ++
            (if ((List.range st.cells.length).toFinset \ new_order.toFinset).Nonempty
              then " Missing indices: " ++
                toString (((List.range st.cells.length).toFinset \
                  new_order.toFinset).sort (· ≤ ·)) ++ "." else "") ++
            (if (new_order.toFinset \ (List.range st.cells.length).toFinset).Nonempty
              then " Invalid indices: " ++
                toString ((new_order.toFinset \
                  (List.range st.cells.length).toFinset).sort (· ≤ ·)) ++ "."
              else "")), st) := by
        simp only [reorder_cells]
        rw [if_neg (not_not_intro h1), if_pos h2]
      refine ⟨fun _ => ⟨_, herr⟩, fun hp => absurd hp hnoperm, ?_⟩
      rw [herr]
      exact ⟨fun _ => hnoperm, fun _ => ⟨_, rfl⟩⟩
  · have hnoperm : ¬ new_order.Perm (List.range st.cells.length) := by
      intro hp
      exact h1 (hchar.mpr hp).1
    have herr : reorder_cells wrap st new_order =
        (Except.error ("Error: new_order length (" ++ toString new_order.length ++
          ") doesn't match cell count (" ++ toString st.cells.length ++ ")"), st) := by
      simp only [reorder_cells]
      rw [if_pos h1]
    refine ⟨fun _ => ⟨_, herr⟩, fun hp => absurd hp hnoperm, ?_⟩
    rw [herr]
    exact ⟨fun _ => hnoperm, fun _ => ⟨_, rfl⟩⟩

/-- C9 witness: on the two-cell document, `[0, 0]` is rejected with the
state unchanged, while `[1, 0]` succeeds, reorders the cells, and records
the executed command in history. -/
theorem reorder_validation_witness :
    (∃ e, reorder_cells id
        (⟨["a", "b"], ⟨100, [], []⟩⟩ : NotebookState String ReorderCellsCommand)
        [0, 0] = (Except.error e, ⟨["a", "b"], ⟨100, [], []⟩⟩)) ∧
    (∃ s, reorder_cells id
        (⟨["a", "b"], ⟨100, [], []⟩⟩ : NotebookState String ReorderCellsCommand)
        [1, 0] = (Except.ok s,
          ⟨["b", "a"], OperationHistory.add_command ⟨100, [], []⟩ ⟨[0, 1], [1, 0]⟩⟩)) :=
  ⟨(reorder_validation id ⟨["a", "b"], ⟨100, [], []⟩⟩ [0, 0]).1 (by decide),
   (reorder_validation id ⟨["a", "b"], ⟨100, [], []⟩⟩ [1, 0]).2.1 (by decide)⟩

end Headlesnb
